import Mathlib

/-!
Shallow embedding of the docShadow documentation generator
(`docshadow/generator.py`, `docshadow/utils.py`).

The Python code parses a source file with `ast.parse` and walks the tree.
We embed the fragment of the Python abstract syntax that the extractor
inspects: statements (`FunctionDef`, `AsyncFunctionDef`, `ClassDef`,
`Assign`, `Import`, `ImportFrom`, expression statements, and an opaque
compound statement carrying nested statements, standing for `If`, `For`,
`Try`, ... whose bodies `ast.walk` descends into) and expressions
(`Name`, `Attribute`, `Constant`, `List`, `Dict`, `Tuple`, and an opaque
rest).  Expressions never contain statements in Python, so walking the
statement bodies is enough for the node kinds the extractor matches.

Machine-facing details that no extractor inspects structurally are kept
as deterministic strings: `ast.dump` is modelled by `dumpExpr`, Python
`str`/`repr` of literal values by `pyStr`/`pyRepr` (ASCII escaping of
`repr` is elided), and `inspect.cleandoc` inside `ast.get_docstring` is
elided (the docstring value is carried verbatim).
-/

/-- Python literal values carried by `ast.Constant`. -/
inductive PyVal where
  | str (s : String)
  | int (n : Int)
  | bool (b : Bool)
  | none
deriving DecidableEq, Repr

/-- single-quote character, used by the `repr` model -/
def pySQuote : String := (Char.ofNat 39).toString

/-- Python `str()` of a literal value. -/
def pyStr : PyVal → String
  | .str s => s
  | .int n => toString n
  | .bool b => if b then "True" else "False"
  | .none => "None"

/-- Python `repr()` of a literal value (string escaping elided). -/
def pyRepr : PyVal → String
  | .str s => pySQuote ++ s ++ pySQuote
  | .int n => toString n
  | .bool b => if b then "True" else "False"
  | .none => "None"

/-- Python expressions, restricted to the shapes the extractor
distinguishes; everything else is `other` with its `ast.dump` text. -/
inductive Expr where
  | name (id : String)
  | attribute (value : Expr) (attr : String)
  | constant (v : PyVal)
  | listE (elts : List Expr)
  | dictE (keys : List Expr) (values : List Expr)
  | tupleE (elts : List Expr)
  | other (dump : String)

mutual
/-- model of `ast.dump` on an expression node -/
def dumpExpr : Expr → String
  | .name id => "Name(id=" ++ pySQuote ++ id ++ pySQuote ++ ")"
  | .attribute v a => "Attribute(value=" ++ dumpExpr v ++ ", attr=" ++ pySQuote ++ a ++ pySQuote ++ ")"
  | .constant v => "Constant(value=" ++ pyRepr v ++ ")"
  | .listE elts => "List(elts=[" ++ dumpExprList elts ++ "])"
  | .dictE ks vs =>
      "Dict(keys=[" ++ dumpExprList ks ++ "], values=[" ++ dumpExprList vs ++ "])"
  | .tupleE elts => "Tuple(elts=[" ++ dumpExprList elts ++ "])"
  | .other d => d

def dumpExprList : List Expr → String
  | [] => ""
  | [e] => dumpExpr e
  | e :: rest => dumpExpr e ++ ", " ++ dumpExprList rest
end

/-- resolution helper `_get_name`: textual resolution of an expression used for decorator,
base-class and annotation names. -/
def getName : Expr → String
  | .name id => id
  | .attribute v attr => getName v ++ "." ++ attr
  | .constant v => pyStr v
  | e => dumpExpr e

/-- the `_get_annotation` helper (field named `annotation` in the source) -/
def getAnnot : Option Expr → Option String
  | Option.none => Option.none
  | some a => some (getName a)

/-- value-representation helper `_get_value_repr` -/
def getValueRepr : Expr → String
  | .constant v => pyRepr v
  | .name id => id
  | .listE _ => "[...]"
  | .dictE _ _ => "\x7b...\x7d"
  | e => dumpExpr e

/-- one name in an `import`/`from ... import` statement (`ast.alias`) -/
structure PyAlias where
  name : String
  asname : Option String
deriving DecidableEq, Repr

/-- one formal parameter (`ast.arg`) -/
structure Arg where
  arg : String
  annot : Option Expr

/-- embedding of `ast.arguments`: the full parameter clause of a function.
`posonlyargs`, `kwonlyargs` and `kw_defaults` are part of the Python node
but are never read by `_extract_arguments`. -/
structure Arguments where
  posonlyargs : List Arg
  args : List Arg
  vararg : Option Arg
  kwonlyargs : List Arg
  kw_defaults : List (Option Expr)
  kwarg : Option Arg
  defaults : List Expr

/-- Python statements, restricted to the node kinds the extractor
matches; `other` holds the nested statements of any remaining compound
statement so that `ast.walk` can descend into them. -/
inductive Stmt where
  | functionDef (name : String) (args : Arguments) (body : List Stmt)
      (decorator_list : List Expr) (returns : Option Expr) (lineno : Nat)
  | asyncFunctionDef (name : String) (args : Arguments) (body : List Stmt)
      (decorator_list : List Expr) (returns : Option Expr) (lineno : Nat)
  | classDef (name : String) (bases : List Expr) (body : List Stmt)
      (decorator_list : List Expr) (lineno : Nat)
  | assign (targets : List Expr) (value : Expr) (lineno : Nat)
  | importS (names : List PyAlias)
  | importFrom (module : Option String) (names : List PyAlias)
  | exprStmt (value : Expr)
  | other (dump : String) (children : List Stmt)

mutual
/-- number of statement nodes in a statement's subtree (≥ 1) -/
def stmtSize : Stmt → Nat
  | .functionDef _ _ body _ _ _ => 1 + stmtListSize body
  | .asyncFunctionDef _ _ body _ _ _ => 1 + stmtListSize body
  | .classDef _ _ body _ _ => 1 + stmtListSize body
  | .other _ children => 1 + stmtListSize children
  | _ => 1

def stmtListSize : List Stmt → Nat
  | [] => 0
  | s :: rest => stmtSize s + stmtListSize rest
end

/-- the statement children `ast.iter_child_nodes` yields for a statement
(expression children carry no statements and are omitted; they cannot
contain the node kinds the walk-based extractors match) -/
def stmtChildren : Stmt → List Stmt
  | .functionDef _ _ body _ _ _ => body
  | .asyncFunctionDef _ _ body _ _ _ => body
  | .classDef _ _ body _ _ => body
  | .other _ children => children
  | _ => []

/-- breadth-first traversal of a statement queue: the order in which
`ast.walk` visits statement nodes (`ast.walk` is a FIFO traversal; the
interleaved expression nodes match no extractor and are dropped). -/
def walkAux (q : List Stmt) : List Stmt :=
  match q with
  | [] => []
  | s :: rest => s :: walkAux (rest ++ stmtChildren s)
termination_by stmtListSize q
decreasing_by
  have happ : ∀ (a b : List Stmt),
      stmtListSize (a ++ b) = stmtListSize a + stmtListSize b := by
    intro a b
    induction a with
    | nil => simp [stmtListSize]
    | cons x xs ih => simp [stmtListSize, ih]; omega
  have hch : stmtListSize (stmtChildren s) + 1 ≤ stmtSize s := by
    cases s <;> simp [stmtChildren, stmtSize, stmtListSize] <;> omega
  simp only [stmtListSize, happ]
  omega

/-- test `isinstance(node, ast.FunctionDef)`.  In CPython `ast.AsyncFunctionDef`
is not a subclass of `ast.FunctionDef`, so an async def never passes this
check. -/
def isinstFunctionDef : Stmt → Bool
  | .functionDef _ _ _ _ _ _ => true
  | _ => false

/-- model of `ast.get_docstring`: the string literal standing first in a body
(`inspect.cleandoc` normalisation elided). -/
def getDocstring : List Stmt → Option String
  | .exprStmt (.constant (.str s)) :: _ => some s
  | _ => Option.none

/-- Python `str.isupper` on an (ASCII) identifier: every cased character
is upper-case and at least one cased character exists. -/
def pyIsUpper (s : String) : Bool :=
  s.data.all (fun c => !c.isLower) && s.data.any (fun c => c.isUpper)

/-- one entry of the `imports` list: the two dict shapes produced by
`_extract_imports` -/
inductive ImportEntry where
  | imp (module : String) (aliasName : Option String)
  | fromImp (module : String) (name : String) (aliasName : Option String)
deriving DecidableEq, Repr

/-- the import entries one statement contributes in `_extract_imports` -/
def importItemsOf : Stmt → List ImportEntry
  | .importS names => names.map (fun a => .imp a.name a.asname)
  | .importFrom module names =>
      names.map (fun a => .fromImp (module.getD "") a.name a.asname)
  | _ => []

/-- extractor `_extract_imports`: walk the whole tree, appending entries for every
`Import`/`ImportFrom` node. -/
def extractImports (body : List Stmt) : List ImportEntry :=
  (walkAux body).foldl (fun acc node => acc ++ importItemsOf node) []

/-- one entry of an `arguments` list: the three dict shapes produced by
`_extract_arguments` (a plain positional parameter, the `*args` entry
tagged `is_vararg`, the `**kwargs` entry tagged `is_kwarg`) -/
inductive ArgumentInfo where
  | regular (name : String) (type : Option String)
      (has_default : Bool) (default : Option String)
  | varargE (name : String) (type : Option String)
  | kwargE (name : String) (type : Option String)
deriving DecidableEq, Repr

/-- extractor `_extract_arguments`.  The index arithmetic is over `Int` exactly as
in Python (`i >= len(args.args) - len(args.defaults)`, and the guard
`default_idx >= 0`); out-of-range indexing, impossible for `ast`-produced
nodes, yields no default. -/
def extractArguments (a : Arguments) : List ArgumentInfo :=
  let n := a.args.length
  let k := a.defaults.length
  let regulars := a.args.enum.foldl (fun acc p =>
    let i := p.1
    let arg := p.2
    let hasDef : Bool := decide ((i : Int) ≥ (n : Int) - (k : Int))
    let defVal : Option String :=
      if (i : Int) ≥ (n : Int) - (k : Int) then
        if (i : Int) - ((n : Int) - (k : Int)) ≥ 0 then
          (a.defaults[((i : Int) - ((n : Int) - (k : Int))).toNat]?).map getValueRepr
        else Option.none
      else Option.none
    acc ++ [ArgumentInfo.regular arg.arg (getAnnot arg.annot) hasDef defVal]) []
  let withVararg :=
    match a.vararg with
    | some v => regulars ++ [ArgumentInfo.varargE ("*" ++ v.arg) (getAnnot v.annot)]
    | Option.none => regulars
  match a.kwarg with
  | some kw => withVararg ++ [ArgumentInfo.kwargE ("**" ++ kw.arg) (getAnnot kw.annot)]
  | Option.none => withVararg

/-- one entry of a `methods`/`functions` list; the three `Option Bool`
flags model the dict keys only present when `is_method` -/
structure FunctionInfo where
  name : String
  docstring : Option String
  line_number : Nat
  arguments : List ArgumentInfo
  decorators : List String
  is_async : Bool
  is_method : Bool
  returns : Option String
  is_classmethod : Option Bool
  is_staticmethod : Option Bool
  is_private : Option Bool
deriving DecidableEq, Repr

/-- extractor `_extract_function_info`.  The `is_async` field is
`isinstance(node, ast.AsyncFunctionDef)` on the node passed in; on any
node without the accessed attributes Python would raise, modelled as
`none` (never reached by the callers, which filter first). -/
def extractFunctionInfo (isMethod : Bool) : Stmt → Option FunctionInfo
  | .functionDef name args _fbody decs ret ln =>
      some { name := name
             docstring := getDocstring _fbody
             line_number := ln
             arguments := extractArguments args
             decorators := decs.map getName
             is_async := false
             is_method := isMethod
             returns := ret.map getName
             is_classmethod :=
               if isMethod then some (decs.any (fun d => getName d == "classmethod"))
               else Option.none
             is_staticmethod :=
               if isMethod then some (decs.any (fun d => getName d == "staticmethod"))
               else Option.none
             is_private :=
               if isMethod then some (name.startsWith "_") else Option.none }
  | .asyncFunctionDef name args _fbody decs ret ln =>
      some { name := name
             docstring := getDocstring _fbody
             line_number := ln
             arguments := extractArguments args
             decorators := decs.map getName
             is_async := true
             is_method := isMethod
             returns := ret.map getName
             is_classmethod :=
               if isMethod then some (decs.any (fun d => getName d == "classmethod"))
               else Option.none
             is_staticmethod :=
               if isMethod then some (decs.any (fun d => getName d == "staticmethod"))
               else Option.none
             is_private :=
               if isMethod then some (name.startsWith "_") else Option.none }
  | _ => Option.none

/-- extractor `_extract_functions`: only direct elements of `tree.body`. -/
def extractFunctions (body : List Stmt) : List FunctionInfo :=
  body.foldl (fun acc node =>
    if isinstFunctionDef node then acc ++ (extractFunctionInfo false node).toList
    else acc) []

/-- extractor `_extract_methods`: only direct elements of the class body. -/
def extractMethods (classBody : List Stmt) : List FunctionInfo :=
  classBody.foldl (fun acc node =>
    if isinstFunctionDef node then acc ++ (extractFunctionInfo true node).toList
    else acc) []

/-- the decorator test in `_extract_properties`: a bare `property` name
or an attribute access whose final segment is `property` -/
def isPropertyDecorator : Expr → Bool
  | .name id => id == "property"
  | .attribute _ attr => attr == "property"
  | _ => false

/-- the inner decorator loop of `_extract_properties`, which appends one
entry at the first matching decorator and then `break`s -/
def firstPropertyHit : List Expr → Bool
  | [] => false
  | d :: rest => if isPropertyDecorator d then true else firstPropertyHit rest

/-- one entry of a `properties` list -/
structure PropertyInfo where
  name : String
  docstring : Option String
  line_number : Nat
  type : String
deriving DecidableEq, Repr

/-- extractor `_extract_properties` -/
def extractProperties (classBody : List Stmt) : List PropertyInfo :=
  classBody.foldl (fun acc node =>
    match node with
    | .functionDef name _ fbody decs _ ln =>
        if firstPropertyHit decs then
          acc ++ [{ name := name
                    docstring := getDocstring fbody
                    line_number := ln
                    type := "property" }]
        else acc
    | _ => acc) []

/-- one entry of the `classes` list -/
structure ClassInfo where
  name : String
  docstring : Option String
  line_number : Nat
  bases : List String
  decorators : List String
  methods : List FunctionInfo
  properties : List PropertyInfo
deriving DecidableEq, Repr

/-- the class-info dict built for one `ClassDef` node in
`_extract_classes` -/
def classInfoOf : Stmt → Option ClassInfo
  | .classDef name bases body decs ln =>
      some { name := name
             docstring := getDocstring body
             line_number := ln
             bases := bases.map getName
             decorators := decs.map getName
             methods := extractMethods body
             properties := extractProperties body }
  | _ => Option.none

/-- test `isinstance(node, ast.ClassDef)` -/
def isinstClassDef : Stmt → Bool
  | .classDef _ _ _ _ _ => true
  | _ => false

/-- extractor `_extract_classes`: every `ClassDef` anywhere in the walked tree. -/
def extractClasses (body : List Stmt) : List ClassInfo :=
  (walkAux body).foldl (fun acc node =>
    if isinstClassDef node then acc ++ (classInfoOf node).toList
    else acc) []

/-- one entry of the `constants` list -/
structure ConstantInfo where
  name : String
  line_number : Nat
  value : String
deriving DecidableEq, Repr

/-- extractor `_extract_constants`: direct elements of `tree.body` that are
assignments, one entry per target that is an upper-case `Name`. -/
def extractConstants (body : List Stmt) : List ConstantInfo :=
  body.foldl (fun acc node =>
    match node with
    | .assign targets value ln =>
        targets.foldl (fun acc2 target =>
          match target with
          | .name id =>
              if pyIsUpper id then
                acc2 ++ [{ name := id, line_number := ln, value := getValueRepr value }]
              else acc2
          | _ => acc2) acc
    | _ => acc) []

/-- the per-file output dict of `extract_from_file`; the outer `Option`
on each structural field models presence of the dict key -/
structure DocumentationRecord where
  path : String
  module_docstring : Option (Option String)
  imports : Option (List ImportEntry)
  classes : Option (List ClassInfo)
  functions : Option (List FunctionInfo)
  constants : Option (List ConstantInfo)
  error : Option String
  generated_at : String

/-- entry point `extract_from_file`.  Here `source` is the combined outcome of the
`open`/`read`/`ast.parse` calls inside the `try` block: `.error e` for
any exception raised there (its message), `.ok body` for a parsed module
body.  `now` is `datetime.now().isoformat()`. -/
def extractFromFile (path : String) (source : Except String (List Stmt))
    (now : String) : DocumentationRecord :=
  match source with
  | .ok body =>
      { path := path
        module_docstring := some (getDocstring body)
        imports := some (extractImports body)
        classes := some (extractClasses body)
        functions := some (extractFunctions body)
        constants := some (extractConstants body)
        error := Option.none
        generated_at := now }
  | .error e =>
      { path := path
        module_docstring := Option.none
        imports := Option.none
        classes := Option.none
        functions := Option.none
        constants := Option.none
        error := some e
        generated_at := now }

/-- a compiled `pathspec.PathSpec`: the only operation the code uses is
`match_file` -/
structure PathSpec where
  matchFile : String → Bool

/-- the state of the `.docignore` file as seen by `load_docignore`:
absent, unreadable (any exception raised inside the `try`), or a list of
pattern lines -/
inductive DocignoreFileState where
  | missing
  | unreadable (err : String)
  | content (lines : List String)

/-- loader `load_docignore`.  Here `fromLines` stands for the external
`pathspec.PathSpec.from_lines('gitwildmatch', ...)` compiler; on a
missing file the function returns `None`, and on any read failure it
echoes a warning and returns `None`. -/
def loadDocignore (fromLines : List String → PathSpec) :
    DocignoreFileState → Option PathSpec
  | .missing => Option.none
  | .unreadable _ => Option.none
  | .content lines => some (fromLines lines)

/-- predicate `should_ignore_file` -/
def shouldIgnoreFile (filePath : String) (docignoreSpec : Option PathSpec) : Bool :=
  match docignoreSpec with
  | Option.none => false
  | some spec => spec.matchFile filePath

/-- a git commit as the code reads it (`commit.stats.files`, used only
for the unconsumed `files_changed` list, is elided) -/
structure Commit where
  hexsha : String
  message : String
  author : String
  committed_date : String

/-- a GitPython repository: `commits h` models `repo.commit(h)`, with
`none` for a raised `git.BadName`; `headCommit` models `repo.head.commit` -/
structure Repo where
  commits : String → Option Commit
  headCommit : Commit

/-- the dict returned by `get_commit_info` -/
structure CommitInfo where
  hash : String
  short_hash : String
  message : String
  author : String
  date : String

/-- the dict construction at the end of `get_commit_info` -/
def mkCommitInfo (c : Commit) : CommitInfo :=
  { hash := c.hexsha
    short_hash := c.hexsha.take 7
    message := c.message.trim
    author := c.author
    date := c.committed_date }

/-- lookup `get_commit_info`: an explicit hash is looked up (a `BadName` echoes
an error and yields `None`); otherwise the head commit is used. -/
def getCommitInfo (repo : Repo) (commitHash : Option String) : Option CommitInfo :=
  match commitHash with
  | some h =>
      match repo.commits h with
      | some c => some (mkCommitInfo c)
      | Option.none => Option.none
  | Option.none => some (mkCommitInfo repo.headCommit)

/-- a node of the nested structure dict built by
`_build_project_structure`: an insertion-ordered mapping whose values
are sub-dicts or the leaf output-record path strings -/
inductive PSEntry where
  | dir (entries : List (String × PSEntry))
  | file (target : String)

/-- dict key lookup on the insertion-ordered entry list -/
def assocGet : List (String × PSEntry) → String → Option PSEntry
  | [], _ => Option.none
  | (k0, v0) :: rest, k => if k0 == k then some v0 else assocGet rest k

/-- dict key assignment: an existing key keeps its position, a new key
is appended (CPython dict insertion order) -/
def assocSet : List (String × PSEntry) → String → PSEntry → List (String × PSEntry)
  | [], k, v => [(k, v)]
  | (k0, v0) :: rest, k, v =>
      if k0 == k then (k0, v) :: rest else (k0, v0) :: assocSet rest k v

/-- the per-file body of `_build_project_structure`: navigate/create the
nested dicts for all parts but the last, then map the filename to the
output-record path.  Descending into a key that already holds a leaf
string makes Python mutate a `str` and raise a `TypeError` (unreachable
for the file lists `os.walk` produces), modelled by `.error`. -/
def insertPath : List (String × PSEntry) → List String → String →
    Except String (List (String × PSEntry))
  | entries, [], _ => .ok entries
  | entries, [filename], target => .ok (assocSet entries filename (.file target))
  | entries, part :: rest, target =>
      match assocGet entries part with
      | some (.dir sub) =>
          (insertPath sub rest target).map (fun sub2 => assocSet entries part (.dir sub2))
      | some (.file _) => .error "TypeError"
      | Option.none =>
          (insertPath [] rest target).map (fun sub2 => assocSet entries part (.dir sub2))

/-- split model of `Path(py_file).parts` for the relative POSIX paths `os.walk` yields -/
def splitParts (p : String) : List String := p.splitOn "/"

/-- indexer `_build_project_structure` -/
def buildProjectStructure (pythonFiles : List String) :
    Except String (List (String × PSEntry)) :=
  pythonFiles.foldlM (fun st f => insertPath st (splitParts f) (f ++ ".json")) []

/-- the `index.json` dict -/
structure IndexData where
  commit : String
  short_commit : String
  date : String
  message : String
  author : String
  files : List String

/-- the `docshadow.json` dict (`tree` is the key named `structure` in
the source; `structure` is a Lean keyword) -/
structure DocshadowData where
  project : String
  generated_at : String
  commit : String
  tree : List (String × PSEntry)

/-- the observable outcome of one `generate_documentation` call: its
boolean return value, the per-file records written (in processing
order), and the two JSON artifacts if written -/
structure GenResult where
  success : Bool
  fileRecords : List (String × DocumentationRecord)
  indexData : Option IndexData
  docshadowData : Option DocshadowData

/-- orchestrator `generate_documentation`.  Here `repo` is `get_git_repo()`'s result,
`readSource` the per-file read/parse outcome fed to `extract_from_file`,
`projectName` is `Path.cwd().name`, `now` the timestamp.  An empty file
list returns `True` early with nothing written.  A `TypeError` escaping
`_build_project_structure` is caught by the surrounding `try` after
`index.json` was already written, giving `False`. -/
def generateDocumentation (repo : Option Repo) (commitHash : Option String)
    (pythonFiles : List String) (readSource : String → Except String (List Stmt))
    (projectName : String) (now : String) : GenResult :=
  match repo with
  | Option.none =>
      { success := false, fileRecords := [],
        indexData := Option.none, docshadowData := Option.none }
  | some r =>
      match getCommitInfo r commitHash with
      | Option.none =>
          { success := false, fileRecords := [],
            indexData := Option.none, docshadowData := Option.none }
      | some ci =>
          if pythonFiles.isEmpty then
            { success := true, fileRecords := [],
              indexData := Option.none, docshadowData := Option.none }
          else
            let recs := pythonFiles.map (fun f => (f, extractFromFile f (readSource f) now))
            let idx : IndexData :=
              { commit := ci.hash
                short_commit := ci.short_hash
                date := ci.date
                message := ci.message
                author := ci.author
                files := pythonFiles.map (fun f => f ++ ".json") }
            match buildProjectStructure pythonFiles with
            | .ok tree =>
                { success := true
                  fileRecords := recs
                  indexData := some idx
                  docshadowData := some
                    { project := projectName
                      generated_at := now
                      commit := ci.hash
                      tree := tree } }
            | .error _ =>
                { success := false
                  fileRecords := recs
                  indexData := some idx
                  docshadowData := Option.none }

/-- the functions/methods one statement contributes in
`_extract_functions` / `_extract_methods` -/
def funcItemsOf (isMethod : Bool) (node : Stmt) : List FunctionInfo :=
  if isinstFunctionDef node then (extractFunctionInfo isMethod node).toList else []

/-- the class infos one statement contributes in `_extract_classes` -/
def classItemsOf (node : Stmt) : List ClassInfo :=
  if isinstClassDef node then (classInfoOf node).toList else []

/-- the property infos one statement contributes in
`_extract_properties` -/
def propItemsOf : Stmt → List PropertyInfo
  | .functionDef name _ fbody decs _ ln =>
      if firstPropertyHit decs then
        [{ name := name
           docstring := getDocstring fbody
           line_number := ln
           type := "property" }]
      else []
  | _ => []

/-- the constant infos one statement contributes in
`_extract_constants` -/
def constItemsOf : Stmt → List ConstantInfo
  | .assign targets value ln =>
      targets.flatMap (fun t =>
        match t with
        | .name id =>
            if pyIsUpper id then
              [{ name := id, line_number := ln, value := getValueRepr value }]
            else []
        | _ => [])
  | _ => []

mutual
/-- number of `ClassDef` nodes in a statement's whole subtree -/
def classCount : Stmt → Nat
  | .classDef _ _ body _ _ => 1 + classListCount body
  | .functionDef _ _ body _ _ _ => classListCount body
  | .asyncFunctionDef _ _ body _ _ _ => classListCount body
  | .other _ children => classListCount children
  | _ => 0

/-- number of `ClassDef` nodes in the subtrees of a statement list -/
def classListCount : List Stmt → Nat
  | [] => 0
  | s :: rest => classCount s + classListCount rest
end

/-- `isinstance(node, ast.AsyncFunctionDef)` -/
def isinstAsyncFunctionDef : Stmt → Bool
  | .asyncFunctionDef _ _ _ _ _ _ => true
  | _ => false

/-- the dict built for the `i`-th regular parameter in
`_extract_arguments` (`n`/`k` are the lengths of `args.args` and
`args.defaults`) -/
def regEntryOf (n k : Nat) (defaults : List Expr) (p : Nat × Arg) : ArgumentInfo :=
  let i := p.1
  let arg := p.2
  let hasDef : Bool := decide ((i : Int) ≥ (n : Int) - (k : Int))
  let defVal : Option String :=
    if (i : Int) ≥ (n : Int) - (k : Int) then
      if (i : Int) - ((n : Int) - (k : Int)) ≥ 0 then
        (defaults[((i : Int) - ((n : Int) - (k : Int))).toNat]?).map getValueRepr
      else Option.none
    else Option.none
  ArgumentInfo.regular arg.arg (getAnnot arg.annot) hasDef defVal

/-- the `*args` entry, if any -/
def varargItems (a : Arguments) : List ArgumentInfo :=
  match a.vararg with
  | some v => [ArgumentInfo.varargE ("*" ++ v.arg) (getAnnot v.annot)]
  | Option.none => []

/-- the `**kwargs` entry, if any -/
def kwargItems (a : Arguments) : List ArgumentInfo :=
  match a.kwarg with
  | some kw => [ArgumentInfo.kwargE ("**" ++ kw.arg) (getAnnot kw.annot)]
  | Option.none => []

/-- a concrete parameter clause: `def f(x, y=1, *args, **kwargs)` -/
def exampleArguments : Arguments :=
  { posonlyargs := []
    args := [{ arg := "x", annot := Option.none }, { arg := "y", annot := Option.none }]
    vararg := some { arg := "args", annot := Option.none }
    kwonlyargs := []
    kw_defaults := []
    kwarg := some { arg := "kwargs", annot := Option.none }
    defaults := [Expr.constant (PyVal.int 1)] }

/-- a repository in which no commit hash resolves -/
def exampleRepo : Repo :=
  { commits := fun _ => Option.none
    headCommit := { hexsha := "", message := "", author := "", committed_date := "" } }

/-- the timestamp-free part of a per-file record -/
def docStructural (r : DocumentationRecord) :
    String × Option (Option String) × Option (List ImportEntry) ×
      Option (List ClassInfo) × Option (List FunctionInfo) ×
      Option (List ConstantInfo) × Option String :=
  (r.path, r.module_docstring, r.imports, r.classes, r.functions, r.constants, r.error)

/-- the timestamp-free part of the `docshadow.json` payload -/
def docshadowStructural (d : DocshadowData) :
    String × String × List (String × PSEntry) :=
  (d.project, d.commit, d.tree)

theorem stmtListSize_append (a b : List Stmt) :
    stmtListSize (a ++ b) = stmtListSize a + stmtListSize b := by
  induction a with
  | nil => simp [stmtListSize]
  | cons s rest ih => simp [stmtListSize, ih]; omega

theorem stmtChildren_size (s : Stmt) :
    stmtListSize (stmtChildren s) + 1 ≤ stmtSize s := by
  cases s <;> simp [stmtChildren, stmtSize, stmtListSize] <;> omega

/-- An append-accumulating `foldl` (the shape of every extraction loop)
collects the per-element contributions in order. -/
theorem foldl_acc_flatMap {α β : Type} (F : List β → α → List β) (g : α → List β)
    (hF : ∀ (acc : List β) (x : α), F acc x = acc ++ g x) (l : List α) :
    ∀ acc : List β, l.foldl F acc = acc ++ l.flatMap g := by
  induction l with
  | nil => intro acc; simp
  | cons x rest ih =>
      intro acc
      rw [List.foldl_cons, hF, ih]
      simp

theorem extractFunctions_eq (body : List Stmt) :
    extractFunctions body = body.flatMap (funcItemsOf false) := by
  have h := foldl_acc_flatMap
      (fun acc node =>
        if isinstFunctionDef node then acc ++ (extractFunctionInfo false node).toList
        else acc)
      (funcItemsOf false)
      (by intro acc x; by_cases h : isinstFunctionDef x <;> simp [funcItemsOf, h])
      body []
  simpa [extractFunctions] using h

theorem extractMethods_eq (classBody : List Stmt) :
    extractMethods classBody = classBody.flatMap (funcItemsOf true) := by
  have h := foldl_acc_flatMap
      (fun acc node =>
        if isinstFunctionDef node then acc ++ (extractFunctionInfo true node).toList
        else acc)
      (funcItemsOf true)
      (by intro acc x; by_cases h : isinstFunctionDef x <;> simp [funcItemsOf, h])
      classBody []
  simpa [extractMethods] using h

theorem extractClasses_eq (body : List Stmt) :
    extractClasses body = (walkAux body).flatMap classItemsOf := by
  have h := foldl_acc_flatMap
      (fun acc node =>
        if isinstClassDef node then acc ++ (classInfoOf node).toList else acc)
      classItemsOf
      (by intro acc x; by_cases h : isinstClassDef x <;> simp [classItemsOf, h])
      (walkAux body) []
  simpa [extractClasses] using h

theorem extractImports_eq (body : List Stmt) :
    extractImports body = (walkAux body).flatMap importItemsOf := by
  have h := foldl_acc_flatMap
      (fun acc node => acc ++ importItemsOf node)
      importItemsOf (by intro acc x; rfl) (walkAux body) []
  simpa [extractImports] using h

theorem extractProperties_eq (classBody : List Stmt) :
    extractProperties classBody = classBody.flatMap propItemsOf := by
  have h := foldl_acc_flatMap
      (fun acc node =>
        match node with
        | .functionDef name _ fbody decs _ ln =>
            if firstPropertyHit decs then
              acc ++ [{ name := name
                        docstring := getDocstring fbody
                        line_number := ln
                        type := "property" }]
            else acc
        | _ => acc)
      propItemsOf
      (by
        intro acc x
        cases x <;> simp [propItemsOf]
        rename_i decs _ _
        by_cases h : firstPropertyHit decs <;> simp [h])
      classBody []
  simpa [extractProperties] using h

theorem extractConstants_eq (body : List Stmt) :
    extractConstants body = body.flatMap constItemsOf := by
  have h := foldl_acc_flatMap
      (fun acc node =>
        match node with
        | Stmt.assign targets value ln =>
            targets.foldl (fun acc2 target =>
              match target with
              | Expr.name id =>
                  if pyIsUpper id then
                    acc2 ++ [{ name := id, line_number := ln, value := getValueRepr value }]
                  else acc2
              | _ => acc2) acc
        | _ => acc)
      constItemsOf
      (by
        intro acc x
        cases x <;> simp [constItemsOf]
        rename_i targets value ln
        have hin := foldl_acc_flatMap
          (fun acc2 target =>
            match target with
            | Expr.name id =>
                if pyIsUpper id then
                  acc2 ++ [{ name := id, line_number := ln, value := getValueRepr value }]
                else acc2
            | _ => acc2)
          (fun t =>
            match t with
            | Expr.name id =>
                if pyIsUpper id then
                  [{ name := id, line_number := ln, value := getValueRepr value }]
                else []
            | _ => [])
          (by
            intro acc2 t
            cases t <;> simp
            rename_i id
            by_cases h : pyIsUpper id <;> simp [h])
          targets acc
        exact hin)
      body []
  simpa [extractConstants] using h

theorem stmtSize_pos (s : Stmt) : 1 ≤ stmtSize s := by
  cases s <;> simp [stmtSize] <;> omega

theorem classCount_eq (s : Stmt) :
    classCount s = (if isinstClassDef s then 1 else 0) + classListCount (stmtChildren s) := by
  cases s <;> simp [classCount, isinstClassDef, stmtChildren, classListCount]

theorem classListCount_append (a b : List Stmt) :
    classListCount (a ++ b) = classListCount a + classListCount b := by
  induction a with
  | nil => simp [classListCount]
  | cons s rest ih => simp [classListCount, ih]; omega

theorem walk_countP_class_aux :
    ∀ (fuel : Nat) (q : List Stmt), stmtListSize q ≤ fuel →
      (walkAux q).countP isinstClassDef = classListCount q := by
  intro fuel
  induction fuel with
  | zero =>
      intro q hq
      cases q with
      | nil => simp [walkAux, classListCount]
      | cons s rest =>
          exfalso
          have h1 := stmtSize_pos s
          simp [stmtListSize] at hq
          omega
  | succ n ih =>
      intro q hq
      cases q with
      | nil => simp [walkAux, classListCount]
      | cons s rest =>
          rw [walkAux]
          have hsz : stmtListSize (rest ++ stmtChildren s) ≤ n := by
            rw [stmtListSize_append]
            have h1 := stmtChildren_size s
            simp [stmtListSize] at hq
            omega
          rw [List.countP_cons, ih (rest ++ stmtChildren s) hsz,
              classListCount_append]
          simp [classListCount, classCount_eq s]
          by_cases h : isinstClassDef s <;> simp [h] <;> omega

/-- The BFS walk visits exactly the `ClassDef` nodes of the whole tree:
counting matches over the walk equals the recursive subtree count. -/
theorem walk_countP_class (q : List Stmt) :
    (walkAux q).countP isinstClassDef = classListCount q :=
  walk_countP_class_aux (stmtListSize q) q le_rfl

/-- C1: for every input file, `extract_from_file` returns a record (it
never raises past the call boundary: the embedding is total over the
read/parse outcome), and exactly one of the two shapes holds: on
successful parse all five structural fields are present and `error` is
absent; on read/parse failure only `path`, `error` and `generated_at`
are populated. -/
theorem c1_extract_record_shape (path : String) (source : Except String (List Stmt))
    (now : String) :
    let r := extractFromFile path source now
    ((r.error = Option.none ∧ r.module_docstring.isSome ∧ r.imports.isSome ∧
        r.classes.isSome ∧ r.functions.isSome ∧ r.constants.isSome) ∨
      (r.error.isSome ∧ r.module_docstring = Option.none ∧ r.imports = Option.none ∧
        r.classes = Option.none ∧ r.functions = Option.none ∧
        r.constants = Option.none)) ∧
    ¬(r.error.isSome ∧ r.classes.isSome) := by
  cases source <;> simp [extractFromFile]

/-- C2 counterexample: the tuple-unpacking assignment `MAX, MIN = 1, 2`
at module scope is one `Assign` whose single target is a `Tuple` node,
which `_extract_constants` skips (`isinstance(target, ast.Name)` fails),
so it yields no ConstantRecord — the claim says it yields records named
`MAX` and `MIN`. -/
theorem c2_counterexample :
    extractConstants
      [Stmt.assign [Expr.tupleE [Expr.name "MAX", Expr.name "MIN"]]
        (Expr.tupleE [Expr.constant (PyVal.int 1), Expr.constant (PyVal.int 2)]) 1]
      = [] := rfl

/-- C2 (amended): constant extraction yields one ConstantRecord per
assignment target that is itself an upper-case `Name`; chained targets
(`MAX = MIN = 1`) each yield a record sharing the statement's line
number, a tuple-unpacking target yields none (shown separately by the
counterexample), and a lower-case target yields none. -/
theorem c2_amended_constants (body : List Stmt) :
    extractConstants body = body.flatMap constItemsOf ∧
    extractConstants [Stmt.assign [Expr.name "MAX"] (Expr.constant (PyVal.int 1)) 1] =
      [{ name := "MAX", line_number := 1, value := "1" }] ∧
    extractConstants
        [Stmt.assign [Expr.name "MAX", Expr.name "MIN"]
          (Expr.constant (PyVal.int 1)) 3] =
      [{ name := "MAX", line_number := 3, value := "1" },
       { name := "MIN", line_number := 3, value := "1" }] ∧
    extractConstants [Stmt.assign [Expr.name "max"] (Expr.constant (PyVal.int 1)) 1]
      = [] := by
  refine ⟨extractConstants_eq body, by decide, by decide, by decide⟩

theorem flatMap_classItems_length (l : List Stmt) :
    (l.flatMap classItemsOf).length = l.countP isinstClassDef := by
  induction l with
  | nil => rfl
  | cons s rest ih =>
      rw [List.flatMap_cons, List.length_append, ih, List.countP_cons]
      have h : (classItemsOf s).length = if isinstClassDef s then 1 else 0 := by
        cases s <;> simp [classItemsOf, isinstClassDef, classInfoOf]
      rw [h]
      by_cases hc : isinstClassDef s <;> simp [hc] <;> omega

/-- C4: extraction reports one ClassRecord per `ClassDef` anywhere in
the tree (the flattened list has exactly `classListCount body` entries,
the recursive count over all nested bodies), while the module-level
functions list is exactly the per-statement contributions of the direct
elements of `tree.body` (nested and local functions contribute
nothing). -/
theorem c4_classes_anywhere_functions_toplevel (body : List Stmt) :
    (extractClasses body).length = classListCount body ∧
    extractClasses body = (walkAux body).flatMap classItemsOf ∧
    extractFunctions body = body.flatMap (funcItemsOf false) := by
  refine ⟨?_, extractClasses_eq body, extractFunctions_eq body⟩
  rw [extractClasses_eq, flatMap_classItems_length, walk_countP_class]

theorem firstPropertyHit_eq_any (decs : List Expr) :
    firstPropertyHit decs = decs.any isPropertyDecorator := by
  induction decs with
  | nil => rfl
  | cons d rest ih =>
      rw [firstPropertyHit, List.any_cons, ih]
      by_cases h : isPropertyDecorator d <;> simp [h]

/-- C5: a method of a class body lands in `properties` exactly when some
decorator is the bare identifier `property` or a dotted access whose
final attribute segment is `property`; each `FunctionDef` of the body
contributes at most one entry to `properties` (the decorator loop breaks
at the first hit) and exactly one entry to `methods`. -/
theorem c5_property_classification (classBody : List Stmt) :
    extractProperties classBody = classBody.flatMap propItemsOf ∧
    extractMethods classBody = classBody.flatMap (funcItemsOf true) ∧
    (∀ decs : List Expr,
      firstPropertyHit decs =
        decs.any (fun d =>
          match d with
          | .name id => id == "property"
          | .attribute _ attr => attr == "property"
          | _ => false)) := by
  refine ⟨extractProperties_eq classBody, extractMethods_eq classBody, ?_⟩
  intro decs
  have heq : (fun d : Expr =>
      match d with
      | .name id => id == "property"
      | .attribute _ attr => attr == "property"
      | _ => false) = isPropertyDecorator :=
    funext (fun d => by cases d <;> rfl)
  rw [heq]
  exact firstPropertyHit_eq_any decs

/-- C7: with no `.docignore` file the matcher is `None` and the
exclusion check returns `false` for every path; a failed load likewise
yields `None` (after a warning) and the check still returns `false` —
the run is never aborted. -/
theorem c7_docignore_fallback (fromLines : List String → PathSpec)
    (filePath err : String) :
    loadDocignore fromLines .missing = Option.none ∧
    loadDocignore fromLines (.unreadable err) = Option.none ∧
    shouldIgnoreFile filePath (loadDocignore fromLines .missing) = false ∧
    shouldIgnoreFile filePath (loadDocignore fromLines (.unreadable err)) = false :=
  ⟨rfl, rfl, rfl, rfl⟩

theorem funcItems_async_false (isMethod : Bool) (s : Stmt) :
    ((funcItemsOf isMethod s).all (fun m => !m.is_async)) = true := by
  cases s <;> simp [funcItemsOf, isinstFunctionDef, extractFunctionInfo]

theorem all_flatMap_of_all {α β : Type} (g : α → List β) (p : β → Bool)
    (hg : ∀ x, (g x).all p = true) (l : List α) :
    ((l.flatMap g).all p) = true := by
  induction l with
  | nil => rfl
  | cons x rest ih => simp [List.flatMap_cons, List.all_append, hg x, ih]

theorem mem_funcItems_async (isMethod : Bool) (s : Stmt) :
    ∀ m ∈ funcItemsOf isMethod s, m.is_async = false := by
  cases s <;> simp [funcItemsOf, isinstFunctionDef, extractFunctionInfo]

theorem classItems_methods_async (node : Stmt) :
    ((classItemsOf node).all
      (fun c => c.methods.all (fun m => !m.is_async))) = true := by
  cases node <;> simp [classItemsOf, isinstClassDef, classInfoOf]
  rw [extractMethods_eq]
  intro x hx
  rw [List.mem_flatMap] at hx
  obtain ⟨s, _, hxs⟩ := hx
  exact mem_funcItems_async true s x hxs

theorem funcItems_of_async (isMethod : Bool) (s : Stmt)
    (h : isinstAsyncFunctionDef s = true) : funcItemsOf isMethod s = [] := by
  cases s <;> simp_all [isinstAsyncFunctionDef, funcItemsOf, isinstFunctionDef]

theorem flatMap_filter_async (isMethod : Bool) (l : List Stmt) :
    ((l.filter (fun s => !isinstAsyncFunctionDef s)).flatMap (funcItemsOf isMethod)) =
      l.flatMap (funcItemsOf isMethod) := by
  induction l with
  | nil => rfl
  | cons s rest ih =>
      by_cases h : isinstAsyncFunctionDef s
      · simp [List.filter_cons, h, ih, List.flatMap_cons, funcItems_of_async isMethod s h]
      · simp [List.filter_cons, h, ih, List.flatMap_cons]

/-- C9: async function definitions are never reported — the function and
method collectors test `isinstance(node, ast.FunctionDef)`, which an
`AsyncFunctionDef` does not satisfy — so dropping every async def from a
module body or class body changes nothing, and every reported record has
`is_async = false`. -/
theorem c9_async_never_reported (body classBody : List Stmt) :
    ((extractFunctions body).all (fun f => !f.is_async)) = true ∧
    ((extractClasses body).all
      (fun c => c.methods.all (fun m => !m.is_async))) = true ∧
    extractFunctions (body.filter (fun s => !isinstAsyncFunctionDef s)) =
      extractFunctions body ∧
    extractMethods (classBody.filter (fun s => !isinstAsyncFunctionDef s)) =
      extractMethods classBody := by
  refine ⟨?_, ?_, ?_, ?_⟩
  · rw [extractFunctions_eq]
    exact all_flatMap_of_all _ _ (funcItems_async_false false) _
  · rw [extractClasses_eq]
    exact all_flatMap_of_all _ _ classItems_methods_async _
  · rw [extractFunctions_eq, extractFunctions_eq]
    exact flatMap_filter_async false body
  · rw [extractMethods_eq, extractMethods_eq]
    exact flatMap_filter_async true classBody

/-- An append-accumulating `foldl` with singleton contributions is a
`map`. -/
theorem foldl_acc_map {α β : Type} (F : List β → α → List β) (f : α → β)
    (hF : ∀ (acc : List β) (x : α), F acc x = acc ++ [f x]) (l : List α) :
    ∀ acc : List β, l.foldl F acc = acc ++ l.map f := by
  induction l with
  | nil => intro acc; simp
  | cons x rest ih =>
      intro acc
      rw [List.foldl_cons, hF, ih]
      simp

theorem regulars_foldl (a : Arguments) :
    a.args.enum.foldl
      (fun (acc : List ArgumentInfo) (p : Nat × Arg) =>
        acc ++ [regEntryOf a.args.length a.defaults.length a.defaults p]) [] =
      a.args.enum.map (regEntryOf a.args.length a.defaults.length a.defaults) := by
  simpa using foldl_acc_map
    (fun (acc : List ArgumentInfo) (p : Nat × Arg) =>
      acc ++ [regEntryOf a.args.length a.defaults.length a.defaults p])
    (regEntryOf a.args.length a.defaults.length a.defaults)
    (fun _ _ => rfl) a.args.enum []

theorem extractArguments_eq (a : Arguments) :
    extractArguments a =
      a.args.enum.map (regEntryOf a.args.length a.defaults.length a.defaults)
        ++ varargItems a ++ kwargItems a := by
  have hfold := regulars_foldl a
  rcases hv : a.vararg with _ | v <;> rcases hk : a.kwarg with _ | kw <;>
    simp only [extractArguments, hv, hk, varargItems, kwargItems, List.append_nil]
  · exact hfold
  · exact congrArg
      (fun x => x ++ [ArgumentInfo.kwargE ("**" ++ kw.arg) (getAnnot kw.annot)]) hfold
  · exact congrArg
      (fun x => x ++ [ArgumentInfo.varargE ("*" ++ v.arg) (getAnnot v.annot)]) hfold
  · exact congrArg
      (fun x => x ++ [ArgumentInfo.varargE ("*" ++ v.arg) (getAnnot v.annot)]
        ++ [ArgumentInfo.kwargE ("**" ++ kw.arg) (getAnnot kw.annot)]) hfold

theorem extractArguments_get_lt (a : Arguments) (i : Nat) (hi : i < a.args.length) :
    (extractArguments a)[i]? =
      (a.args[i]?).map
        (fun arg => regEntryOf a.args.length a.defaults.length a.defaults (i, arg)) := by
  have h1 : i < (a.args.enum.map
      (regEntryOf a.args.length a.defaults.length a.defaults)).length := by
    simpa using hi
  have h2 : i < ((a.args.enum.map
      (regEntryOf a.args.length a.defaults.length a.defaults)) ++ varargItems a).length := by
    rw [List.length_append]
    omega
  rw [extractArguments_eq, List.getElem?_append_left h2, List.getElem?_append_left h1,
      List.getElem?_map, List.getElem?_enum]
  cases h : a.args[i]? <;> simp [h]

theorem regEntryOf_no_default (n k : Nat) (defaults : List Expr) (i : Nat) (arg : Arg)
    (h : (i : Int) < (n : Int) - (k : Int)) :
    regEntryOf n k defaults (i, arg) =
      ArgumentInfo.regular arg.arg (getAnnot arg.annot) false Option.none := by
  have h1 : ¬((i : Int) ≥ (n : Int) - (k : Int)) := by omega
  simp only [regEntryOf, if_neg h1, decide_eq_false h1]

theorem regEntryOf_with_default (n k : Nat) (defaults : List Expr) (j : Nat) (arg : Arg)
    (hk : k ≤ n) (hj : j < k) :
    regEntryOf n k defaults (n - k + j, arg) =
      ArgumentInfo.regular arg.arg (getAnnot arg.annot) true
        ((defaults[j]?).map getValueRepr) := by
  have h1 : ((n - k + j : Nat) : Int) ≥ (n : Int) - (k : Int) := by omega
  have h2 : ((n - k + j : Nat) : Int) - ((n : Int) - (k : Int)) ≥ 0 := by omega
  have h3 : (((n - k + j : Nat) : Int) - ((n : Int) - (k : Int))).toNat = j := by omega
  simp only [regEntryOf, if_pos h1, if_pos h2, h3, decide_eq_true h1]

/-- C3: with N positional parameters and K ≤ N trailing defaults, the
first N−K extracted entries have `has_default = false` and no default
representation, the last K have `has_default = true` paired with the
right-aligned default's representation (position N−K+j pairs with
default j), and `*args` / `**kwargs` follow as separate entries tagged
with their collection kind and carrying only a name and optional
type. -/
theorem c3_argument_default_pairing (a : Arguments)
    (hK : a.defaults.length ≤ a.args.length) :
    (∀ i : Nat, i < a.args.length - a.defaults.length →
      (extractArguments a)[i]? =
        (a.args[i]?).map (fun arg =>
          ArgumentInfo.regular arg.arg (getAnnot arg.annot) false Option.none)) ∧
    (∀ j : Nat, j < a.defaults.length →
      (extractArguments a)[a.args.length - a.defaults.length + j]? =
        (a.args[a.args.length - a.defaults.length + j]?).map (fun arg =>
          ArgumentInfo.regular arg.arg (getAnnot arg.annot) true
            ((a.defaults[j]?).map getValueRepr))) ∧
    (∀ v : Arg, a.vararg = some v →
      (extractArguments a)[a.args.length]? =
        some (ArgumentInfo.varargE ("*" ++ v.arg) (getAnnot v.annot))) ∧
    (∀ kw : Arg, a.kwarg = some kw →
      (extractArguments a)[a.args.length + (if a.vararg.isSome then 1 else 0)]? =
        some (ArgumentInfo.kwargE ("**" ++ kw.arg) (getAnnot kw.annot))) ∧
    (extractArguments a).length =
      a.args.length + (if a.vararg.isSome then 1 else 0) +
        (if a.kwarg.isSome then 1 else 0) := by
  have hmaplen : (a.args.enum.map
      (regEntryOf a.args.length a.defaults.length a.defaults)).length =
      a.args.length := by simp
  refine ⟨?_, ?_, ?_, ?_, ?_⟩
  · intro i hi
    have hin : i < a.args.length := by omega
    rw [extractArguments_get_lt a i hin]
    cases h : a.args[i]? <;> simp [h]
    exact regEntryOf_no_default _ _ _ _ _ (by omega)
  · intro j hj
    have hin : a.args.length - a.defaults.length + j < a.args.length := by omega
    rw [extractArguments_get_lt a _ hin]
    cases h : a.args[a.args.length - a.defaults.length + j]? <;> simp [h]
    exact regEntryOf_with_default _ _ _ _ _ hK hj
  · intro v hv
    rw [extractArguments_eq]
    have hlen2 : a.args.length <
        ((a.args.enum.map (regEntryOf a.args.length a.defaults.length a.defaults))
          ++ varargItems a).length := by
      rw [List.length_append, hmaplen]
      simp [varargItems, hv]
    rw [List.getElem?_append_left hlen2,
        List.getElem?_append_right (by omega :
          (a.args.enum.map
            (regEntryOf a.args.length a.defaults.length a.defaults)).length ≤
              a.args.length)]
    simp [varargItems, hv, hmaplen]
  · intro kw hkw
    rw [extractArguments_eq]
    rcases hv : a.vararg with _ | v
    · simp only [hv, Option.isSome_none, Bool.false_eq_true, if_false, Nat.add_zero]
      have hl : ((a.args.enum.map
          (regEntryOf a.args.length a.defaults.length a.defaults))
            ++ varargItems a).length ≤ a.args.length := by
        rw [List.length_append, hmaplen]
        simp [varargItems, hv]
      rw [List.getElem?_append_right hl]
      simp [varargItems, kwargItems, hv, hkw, hmaplen]
    · simp only [hv, Option.isSome_some, if_true]
      have hl : ((a.args.enum.map
          (regEntryOf a.args.length a.defaults.length a.defaults))
            ++ varargItems a).length ≤ a.args.length + 1 := by
        rw [List.length_append, hmaplen]
        simp [varargItems, hv]
      rw [List.getElem?_append_right hl]
      simp [varargItems, kwargItems, hv, hkw, hmaplen]
  · rw [extractArguments_eq]
    rcases hv : a.vararg with _ | v <;> rcases hk : a.kwarg with _ | kw <;>
      simp [varargItems, kwargItems, hv, hk]

/-- witness for C3 at `def f(x, y=1, *args, **kwargs)` -/
theorem c3_argument_default_pairing_witness :
    exampleArguments.defaults.length ≤ exampleArguments.args.length ∧
    (extractArguments exampleArguments).length = 4 :=
  ⟨by decide,
   by simpa using
     (c3_argument_default_pairing exampleArguments (by decide)).2.2.2.2⟩

/-- C10: `_extract_arguments` never reads `posonlyargs`, `kwonlyargs` or
`kw_defaults` — positional-only and keyword-only parameters never appear
— and the produced list is exactly the plain positional entries followed
by the `*args` entry (if any) and the `**kwargs` entry (if any). -/
theorem c10_only_plain_positional_surfaced (a : Arguments) (posOnly kwOnly : List Arg)
    (kwDefaults : List (Option Expr)) :
    extractArguments
        { a with
          posonlyargs := posOnly
          kwonlyargs := kwOnly
          kw_defaults := kwDefaults } = extractArguments a ∧
    extractArguments a =
      a.args.enum.map (regEntryOf a.args.length a.defaults.length a.defaults)
        ++ varargItems a ++ kwargItems a :=
  ⟨rfl, extractArguments_eq a⟩

/-- C6: with no version-control context, or when the explicitly
requested commit does not exist (`repo.commit` raises `BadName`),
generation returns failure before any source file is processed: no
per-file record is produced and neither `index.json` nor
`docshadow.json` is written. -/
theorem c6_bad_commit_aborts (r : Repo) (h0 : String) (pythonFiles : List String)
    (readSource : String → Except String (List Stmt)) (projectName now : String)
    (hbad : r.commits h0 = Option.none) :
    generateDocumentation (some r) (some h0) pythonFiles readSource projectName now =
      { success := false, fileRecords := [],
        indexData := Option.none, docshadowData := Option.none } ∧
    generateDocumentation Option.none (some h0) pythonFiles readSource projectName now =
      { success := false, fileRecords := [],
        indexData := Option.none, docshadowData := Option.none } := by
  constructor
  · simp [generateDocumentation, getCommitInfo, hbad]
  · rfl

/-- witness for C6: a concrete run with an unresolvable commit hash -/
theorem c6_bad_commit_aborts_witness :
    exampleRepo.commits "deadbeef" = Option.none ∧
    (generateDocumentation (some exampleRepo) (some "deadbeef") ["a.py"]
        (fun _ => Except.ok []) "proj" "t").fileRecords = [] :=
  ⟨rfl, by
    rw [(c6_bad_commit_aborts exampleRepo "deadbeef" ["a.py"]
        (fun _ => Except.ok []) "proj" "t" rfl).1]⟩

theorem docStructural_extract (p : String) (src : Except String (List Stmt))
    (t1 t2 : String) :
    docStructural (extractFromFile p src t1) = docStructural (extractFromFile p src t2) := by
  cases src <;> rfl

/-- C8: two runs over the same file list, same read/parse outcomes and
same commit produce identical structural output — per-file records equal
up to `generated_at`, identical `index.json` payload, and identical
`docshadow.json` payload up to `generated_at` — whatever the two
timestamps are. -/
theorem c8_idempotent_modulo_timestamp (repo : Option Repo) (commitHash : Option String)
    (pythonFiles : List String) (readSource : String → Except String (List Stmt))
    (projectName : String) (t1 t2 : String) :
    (generateDocumentation repo commitHash pythonFiles readSource projectName t1).success =
      (generateDocumentation repo commitHash pythonFiles readSource projectName t2).success ∧
    ((generateDocumentation repo commitHash pythonFiles readSource projectName
        t1).fileRecords.map (fun pr => (pr.1, docStructural pr.2))) =
      ((generateDocumentation repo commitHash pythonFiles readSource projectName
        t2).fileRecords.map (fun pr => (pr.1, docStructural pr.2))) ∧
    (generateDocumentation repo commitHash pythonFiles readSource projectName t1).indexData =
      (generateDocumentation repo commitHash pythonFiles readSource projectName t2).indexData ∧
    ((generateDocumentation repo commitHash pythonFiles readSource projectName
        t1).docshadowData.map docshadowStructural) =
      ((generateDocumentation repo commitHash pythonFiles readSource projectName
        t2).docshadowData.map docshadowStructural) := by
  have hmap : ∀ t t' : String,
      (pythonFiles.map (fun f => (f, extractFromFile f (readSource f) t))).map
          (fun pr => (pr.1, docStructural pr.2)) =
        (pythonFiles.map (fun f => (f, extractFromFile f (readSource f) t'))).map
          (fun pr => (pr.1, docStructural pr.2)) := by
    intro t t'
    rw [List.map_map, List.map_map]
    refine List.map_congr_left ?_
    intro f _
    simp [Function.comp, docStructural_extract f (readSource f) t t']
  cases repo with
  | none => exact ⟨rfl, rfl, rfl, rfl⟩
  | some r =>
      cases hci : getCommitInfo r commitHash with
      | none => simp [generateDocumentation, hci]
      | some ci =>
          by_cases hemp : pythonFiles.isEmpty
          · simp [generateDocumentation, hci, hemp]
          · cases hbs : buildProjectStructure pythonFiles with
            | ok tree =>
                refine ⟨?_, ?_, ?_, ?_⟩ <;>
                  simp [generateDocumentation, hci, hemp, hbs, docshadowStructural]
                simpa using hmap t1 t2
            | error e =>
                refine ⟨?_, ?_, ?_, ?_⟩ <;>
                  simp [generateDocumentation, hci, hemp, hbs, docshadowStructural]
                simpa using hmap t1 t2
